import Mathlib

/-!
Verification of the audio-driven video renderer (`src/video_renderer.py`) and the
audio feature extractor (`src/music_analyzer_improved.py`) of the reelsense-ai
repository.  Numeric values are modelled over `ℚ` (the Python code computes with
floats; all the constants involved are decimal literals, so the exact-arithmetic
model matches the intended real-number semantics).  Strings are modelled with
Lean `String`/`List Char`, matching Python's code-point strings.
-/

namespace ReelSense

/-! String helpers (`_safe_text`, `video_renderer.py` lines 29-33) -/

/-- Python `text.replace("\n", " ")`: every newline becomes a space. -/
def replace_nl (s : String) : String :=
  String.mk (s.data.map (fun c => if c = '\n' then ' ' else c))

/-- Python `str.strip()`: drop leading and trailing whitespace. -/
def pyStrip (s : String) : String :=
  String.mk (((s.data.dropWhile Char.isWhitespace).reverse.dropWhile Char.isWhitespace).reverse)

/-- Python `s[:n]`. -/
def stringTake (s : String) (n : ℕ) : String :=
  String.mk (s.data.take n)

/-- Embeds `_safe_text(text, max_len)` from `video_renderer.py` lines 29-33:
empty text is returned unchanged; otherwise newlines become spaces, the ends
are stripped, and a string longer than `max_len` is truncated to
`max_len - 3` characters followed by `"..."`. -/
def safe_text (text : String) (maxLen : ℕ) : String :=
  if text = "" then ""
  else
    let t := pyStrip (replace_nl text)
    if maxLen < t.length then stringTake t (maxLen - 3) ++ "..." else t

/-! Timeline segmentation (`_segment_timeline`, lines 148-160) -/

/-- Embeds `_segment_timeline(duration)`: the five named narrative segments, in the
insertion order of the Python dict, each with its `(start, end)` pair. -/
def segment_timeline (duration : ℚ) : List (String × ℚ × ℚ) :=
  let intro_end := duration * (1/10)
  let hook_end := intro_end + duration * (1/10)
  let dev_end := hook_end + duration * (5/10)
  let climax_end := dev_end + duration * (2/10)
  let closing_end := duration
  [("intro", 0, intro_end),
   ("hook_moment", intro_end, hook_end),
   ("development", hook_end, dev_end),
   ("climax", dev_end, climax_end),
   ("closing", climax_end, closing_end)]

/-! Beat-pulse overlay (`_pulse_overlay`, lines 59-71) -/

/-- One iteration of the loop `for bt in times: if abs(t - bt) < 0.10:
pulse = max(pulse, 1.0 - (abs(t - bt) / 0.10))`. -/
def pulseStep (t p bt : ℚ) : ℚ :=
  if |t - bt| < 1/10 then max p (1 - |t - bt| / (1/10)) else p

/-- The `pulse` value computed by `_pulse_overlay.make_frame` at time `t`:
the loop above starting from `pulse = 0.0`. -/
def pulseIntensity (times : List ℚ) (t : ℚ) : ℚ :=
  times.foldl (pulseStep t) 0

/-- The grey value written to every pixel of the pulse frame:
`val = int(alpha * 255)` with `alpha = pulse ** 2 * 0.35` (truncation of a
non-negative float is the floor). -/
def pulse_frame_val (times : List ℚ) (t : ℚ) : ℤ :=
  ⌊pulseIntensity times t ^ 2 * (35/100) * 255⌋

/-- A full-canvas overlay: one grey value per frame (every pixel of the pulse
frame carries the same value) plus a clip-level opacity. -/
structure OverlayLayer where
  frame : ℚ → ℤ
  opacity : ℚ

/-- The pulse layer chosen by `render_tiktok_reel` line 222:
`_pulse_overlay(size, beats, duration) if beats else
ColorClip(size, color=(0, 0, 0)).with_opacity(0)`.  Canvas size and clip
duration do not affect pixel values and are omitted. -/
def pulse_layer (times : List ℚ) : OverlayLayer :=
  if times = [] then { frame := fun _ => 0, opacity := 0 }
  else { frame := fun t => pulse_frame_val times t, opacity := 1 }

/-- Modelled from the spec: the compositor's alpha blend
`result = canvas*(1-opacity) + layerPixels*opacity` (§4.4).  The blend itself
is performed by the external moviepy library, which is not part of `src/`. -/
def composite (canvas : ℤ) (layer : OverlayLayer) (t : ℚ) : ℚ :=
  canvas * (1 - layer.opacity) + layer.frame t * layer.opacity

/-! Loudness envelope (`_waveform_overlay`, lines 163-183) -/

/-- Embeds `librosa.util.frame(y, frame_length=win, hop_length=win)`: the complete
non-overlapping windows of length `win` (a trailing partial window is
dropped; librosa additionally rejects signals shorter than one window, for
which this model returns no frames). -/
def chunkFrames (y : List ℚ) (win : ℕ) : List (List ℚ) :=
  (List.range (y.length / win)).map (fun i => (y.drop (i * win)).take win)

/-- Arithmetic mean of a list (`.mean(axis=0)` of one frame). -/
def listMean (l : List ℚ) : ℚ := l.sum / l.length

/-- Embeds `np.abs(librosa.util.frame(y, frame_length=win, hop_length=win).mean(axis=0))`:
the absolute value of each window's mean. -/
def raw_env (y : List ℚ) (win : ℕ) : List ℚ :=
  (chunkFrames y win).map (fun c => |listMean c|)

/-- Embeds `env = env / (env.max() + 1e-8)` (line 168).  `env.max()` over the
non-negative entries equals the fold of `max` from `0`. -/
def loudness_env (y : List ℚ) (win : ℕ) : List ℚ :=
  let env := raw_env y win
  env.map (fun v => v / (env.foldl max 0 + 1/100000000))

/-! Typewriter layer (`_typewriter_clip`, lines 133-145) -/

/-- The text revealed by `_typewriter_clip.make_frame_local` at local time `t`
for a layer of local duration `dur`:
`text = _safe_text(text, 160)`;
`progress = max(0.0, min(1.0, t / max(0.01, dur)))`;
`n = max(1, int(len(text) * progress))`; reveal `text[:n]`
(Python `int` truncation of a non-negative value is the floor). -/
def typewriter_reveal (text : String) (t dur : ℚ) : String :=
  let text := safe_text text 160
  let progress := max 0 (min 1 (t / max (1/100) dur))
  let n := max 1 (Int.toNat ⌊(text.length : ℚ) * progress⌋)
  stringTake text n

/-! Static text layers (`_image_text_clip` lines 127-131, `add_text_at` lines 228-231) -/

/-- A positioned text clip: `ImageClip(img).with_start(start).with_duration(...)`. -/
structure TextLayer where
  text : String
  start : ℚ
  durationSeconds : ℚ
  fontsize : ℕ
deriving DecidableEq

/-- Embeds `_image_text_clip(text, size, start, end, fontsize)`:
the clip starts at `start` and lasts `max(0.01, end - start)` seconds. -/
def image_text_clip (text : String) (start e : ℚ) (fontsize : ℕ) : TextLayer :=
  { text := text, start := start, durationSeconds := max (1/100) (e - start),
    fontsize := fontsize }

/-- Embeds `add_text_at(text, start, end, fontsize)` from `render_tiktok_reel`
(lines 228-231): on empty text it returns without touching `layers`;
otherwise it appends the `_image_text_clip`. -/
def add_text_at (layers : List TextLayer) (text : String) (start e : ℚ)
    (fontsize : ℕ) : List TextLayer :=
  if text = "" then layers else layers ++ [image_text_clip text start e fontsize]

/-! Karaoke captions (`_karaoke_clips`, lines 186-206) -/

/-- Python `text.split(c)` for a single character separator: every occurrence
of `c` splits, and empty pieces are kept. -/
def splitChar (c : Char) : List Char → List (List Char)
  | [] => [[]]
  | x :: xs =>
    if x = c then [] :: splitChar c xs
    else
      match splitChar c xs with
      | [] => [[x]]
      | y :: ys => (x :: y) :: ys

/-- The `for seg in parts` loop of `_karaoke_clips` (lines 199-205): each
iteration emits a clip `(seg, start, end - start)` with
`end = min(duration, start + per)` and continues from `end`. -/
def karaoke_loop (duration per : ℚ) : List String → ℚ → List (String × ℚ × ℚ)
  | [], _ => []
  | seg :: rest, start =>
    let e := min duration (start + per)
    (seg, start, e - start) :: karaoke_loop duration per rest e

/-- The chunking step of `_karaoke_clips` (lines 191-197): split on `'.'`,
strip each piece, keep pieces longer than 3 characters, and fall back to
`[text]` when nothing survives. -/
def karaoke_parts (text : String) : List String :=
  let parts0 := (((splitChar '.' text.data).map
    (fun l => pyStrip (String.mk l))).filter (fun s => 3 < s.length))
  if parts0 = [] then [text] else parts0

/-- Embeds `_karaoke_clips(transcription, size, duration)` reduced to the data
that matters: the list of `(text, start, durationSeconds)` of the emitted
clips.  `text = _safe_text(transcription, 400)`; empty text yields no clips;
otherwise each chunk gets a `per = duration / len(parts)` slice in order. -/
def karaoke_clips (transcription : String) (duration : ℚ) :
    List (String × ℚ × ℚ) :=
  let text := safe_text transcription 400
  if text = "" then []
  else
    karaoke_loop duration (duration / (karaoke_parts text).length)
      (karaoke_parts text) 0

/-! Audio feature extraction (`_analyze_audio_features`,
`music_analyzer_improved.py` lines 386-438) -/

/-- Python 3 `round`: round half to even. -/
def roundHalfEven (x : ℚ) : ℤ :=
  let f := ⌊x⌋
  let r := x - f
  if r < 1/2 then f
  else if 1/2 < r then f + 1
  else if f % 2 = 0 then f else f + 1

/-- Python `round(x, digits)`. -/
def pyRound (digits : ℕ) (x : ℚ) : ℚ :=
  (roundHalfEven (x * 10 ^ digits) : ℚ) / 10 ^ digits

/-- The record returned by `_analyze_audio_features`. -/
structure AudioFeatures where
  duration_seconds : ℚ
  sample_rate : ℤ
  average_rms : ℚ
  average_pitch_hz : ℚ
  tempo_bpm : ℚ
  spectral_centroid : ℚ
deriving DecidableEq

/-- Embeds `_analyze_audio_features(audio, sr)`.  The three librosa estimators are
each wrapped in their own `try/except` (pitch additionally falls back when no
pitch value passes the magnitude gate), so each is modelled as an `Option ℚ`:
`some v` when the estimator returned `v`, `none` when it raised (or, for
pitch, found no values), in which case the code substitutes `0.0`.  The RMS
mean and the audio length/sample rate are computed outside any handler. -/
def analyze_audio_features (audioLen : ℕ) (sr : ℤ) (rmsMean : ℚ)
    (pitchEst tempoEst spectralEst : Option ℚ) : AudioFeatures :=
  let duration : ℚ := (audioLen : ℚ) / (sr : ℚ)
  let avg_pitch := pitchEst.getD 0
  let tempo := tempoEst.getD 0
  let avg_spectral := spectralEst.getD 0
  { duration_seconds := pyRound 2 duration
    sample_rate := sr
    average_rms := pyRound 4 rmsMean
    average_pitch_hz := pyRound 1 avg_pitch
    tempo_bpm := pyRound 1 tempo
    spectral_centroid := pyRound 1 avg_spectral }

/-! Hashtag strip (`render_tiktok_reel`, lines 247-251) -/

/-- Python lstrip with the hash argument: drop every leading hash
character. -/
def lstripHash (h : String) : String :=
  String.mk (h.data.dropWhile (fun c => c = '#'))

/-- One rendered tag: a single hash character prepended to the stripped
hashtag (the f-string on line 249). -/
def renderTag (h : String) : String := "#" ++ lstripHash h

/-- The hashtag strip text of line 249: the first five hashtags, each
rendered by `renderTag`, joined with two spaces. -/
def hashtag_text (hs : List String) : String :=
  String.intercalate "  " ((hs.take 5).map renderTag)

/-- The hashtag strip clip: `ImageClip(ht_img).with_position(...)
.with_start(0).with_duration(duration)`. -/
structure HashtagLayer where
  text : String
  start : ℚ
  durationSeconds : ℚ
deriving DecidableEq

/-- Lines 247-251 of `render_tiktok_reel`:
`hashtags = concept.get("hashtags") or []` (an absent key yields `[]`), and
only a non-empty list adds the single strip layer. -/
def hashtag_layers (hashtags : Option (List String)) (duration : ℚ) :
    List HashtagLayer :=
  let hs := hashtags.getD []
  if hs = [] then []
  else [{ text := hashtag_text hs, start := 0, durationSeconds := duration }]

/-! Head of `render_tiktok_reel` (lines 209-222) -/

/-- The only exception `render_tiktok_reel` raises on its validation path. -/
inductive RenderError
  | fileNotFound : RenderError
deriving DecidableEq

/-- Lines 213-215: `duration = float(getattr(audio_clip, "duration", 0.0))`,
then `if not duration or duration <= 0: duration = 30.0`
(`not duration` is true exactly for `duration == 0.0`). -/
def resolve_duration (d : ℚ) : ℚ := if d ≤ 0 then 30 else d

/-- The input-validation head of `render_tiktok_reel` (lines 209-215):
a missing audio file raises `FileNotFoundError`; otherwise rendering proceeds
and the function returns the duration of the video that gets written
(`with_duration(duration)`, line 257).  No other validation exists: there is
no `InvalidAudioError` anywhere in the repository. -/
def render_tiktok_reel (audioExists : Bool) (audioDuration : ℚ) :
    Except RenderError ℚ :=
  if audioExists = false then Except.error RenderError.fileNotFound
  else Except.ok (resolve_duration audioDuration)

/-! Theorems -/

/-- Rounding any way maps `0` to `0`. -/
theorem pyRound_zero (digits : ℕ) : pyRound digits 0 = 0 := by
  norm_num [pyRound, roundHalfEven]

/-- C1 counterexample: an audio input whose decoded duration is `0` does not
raise any error; `render_tiktok_reel` substitutes the default duration `30.0`
and writes a video of that length.  No `InvalidAudioError` is raised (no such
exception exists anywhere in the repository). -/
theorem render_zero_duration_counterexample :
    render_tiktok_reel true 0 = Except.ok 30 := by
  norm_num [render_tiktok_reel, resolve_duration]

/-- C1 amended: for every render job whose audio input has duration `0` or
negative (and whose audio file exists), the pipeline raises no error; it
substitutes the default duration `30.0` seconds and produces a video of that
length. -/
theorem render_nonpositive_duration_defaults (d : ℚ) (hd : d ≤ 0) :
    render_tiktok_reel true d = Except.ok 30 := by
  simp [render_tiktok_reel, resolve_duration, hd]

/-- C1 witness: the amended claim at `d = -2`. -/
theorem render_nonpositive_duration_defaults_witness :
    render_tiktok_reel true (-2) = Except.ok 30 :=
  render_nonpositive_duration_defaults (-2) (by norm_num)

/-- C2: for every duration `D > 0` the timeline segmenter returns exactly the
five segments `intro`, `hook_moment`, `development`, `climax`, `closing` in
order; consecutive segments are contiguous (`end` of one equals `start` of the
next); the first start is `0`, the last end is `D`; and the segment lengths
are `0.10, 0.10, 0.50, 0.20, 0.10` of `D`. -/
theorem segment_timeline_five_contiguous_proportional (D : ℚ) (hD : 0 < D) :
    (segment_timeline D).map Prod.fst =
      ["intro", "hook_moment", "development", "climax", "closing"] ∧
    List.Chain' (fun a b => a.2.2 = b.2.1) (segment_timeline D) ∧
    ((segment_timeline D).map (fun s => s.2.1)).head? = some 0 ∧
    ((segment_timeline D).map (fun s => s.2.2)).getLast? = some D ∧
    (segment_timeline D).map (fun s => s.2.2 - s.2.1) =
      [D * (1/10), D * (1/10), D * (5/10), D * (2/10), D * (1/10)] := by
  refine ⟨by simp [segment_timeline], ?_, by simp [segment_timeline],
    by simp [segment_timeline], ?_⟩
  · simp [segment_timeline]
  · simp only [segment_timeline, List.map_cons, List.map_nil, List.cons.injEq,
      and_true]
    refine ⟨by ring, by ring, by ring, by ring, by ring⟩

/-- C2 witness: the theorem instantiated at `D = 10`. -/
theorem segment_timeline_five_contiguous_proportional_witness :
    (segment_timeline 10).map Prod.fst =
      ["intro", "hook_moment", "development", "climax", "closing"] ∧
    List.Chain' (fun a b => a.2.2 = b.2.1) (segment_timeline 10) ∧
    ((segment_timeline 10).map (fun s => s.2.1)).head? = some 0 ∧
    ((segment_timeline 10).map (fun s => s.2.2)).getLast? = some 10 ∧
    (segment_timeline 10).map (fun s => s.2.2 - s.2.1) =
      [10 * (1/10), 10 * (1/10), 10 * (5/10), 10 * (2/10), 10 * (1/10)] :=
  segment_timeline_five_contiguous_proportional 10 (by norm_num)

/-- C4: with an empty beat list the renderer replaces the pulse overlay by a
`ColorClip` of opacity `0`; alpha-blending that layer over any background
value at any time returns the background unchanged. -/
theorem pulse_layer_empty_beats_identity (bg : ℤ) (t : ℚ) :
    (pulse_layer []).opacity = 0 ∧ composite bg (pulse_layer []) t = bg := by
  simp [pulse_layer, composite]

/-- C7 counterexample: `add_text_at` called with the empty string adds no
layer at all — the layer list is left empty, so in particular no layer with
`durationSeconds = 0` is produced (the claim asserts one is). -/
theorem add_text_at_empty_counterexample :
    add_text_at [] "" 0 5 68 = [] ∧
    ¬ ∃ l, l ∈ add_text_at [] "" 0 5 68 ∧ l.durationSeconds = 0 := by
  constructor
  · rfl
  · rintro ⟨l, hl, -⟩
    simp [add_text_at] at hl

/-- C7 amended: passing an empty text string to `add_text_at` adds no layer
(the list is returned unchanged, and no error is raised); with non-empty text
exactly one layer is appended, whose `durationSeconds` is
`max(0.01, end - start)` — in particular at least `0.01`, never `0`. -/
theorem add_text_at_amended (layers : List TextLayer) (text : String)
    (s e : ℚ) (fs : ℕ) :
    (text = "" → add_text_at layers text s e fs = layers) ∧
    (text ≠ "" →
      add_text_at layers text s e fs = layers ++ [image_text_clip text s e fs] ∧
      ∀ L ∈ add_text_at layers text s e fs, L ∈ layers ∨
        (L.text = text ∧ L.durationSeconds = max (1/100) (e - s) ∧
          1/100 ≤ L.durationSeconds)) := by
  constructor
  · intro h
    simp [add_text_at, h]
  · intro h
    constructor
    · simp [add_text_at, h]
    · intro L hL
      simp only [add_text_at, if_neg h, List.mem_append, List.mem_singleton] at hL
      rcases hL with hL | hL
      · exact Or.inl hL
      · refine Or.inr ⟨?_, ?_, ?_⟩
        · rw [hL]; rfl
        · rw [hL]; rfl
        · rw [hL]; exact le_max_left _ _

/-- C7 witness: the amended claim at both an empty and a non-empty text. -/
theorem add_text_at_amended_witness :
    add_text_at [] "" 0 5 68 = [] ∧
    add_text_at [] "hi" 0 5 68 = [] ++ [image_text_clip "hi" 0 5 68] :=
  ⟨(add_text_at_amended [] "" 0 5 68).1 rfl,
   ((add_text_at_amended [] "hi" 0 5 68).2 (by decide)).1⟩

/-- C9: each of the pitch, tempo and spectral-centroid estimators is
independently fallible; when one fails (`none`) the extractor substitutes
`0.0` for that field only, a complete feature record is still returned, and
the values of all other fields do not depend on that estimator's outcome. -/
theorem analyze_audio_features_isolation (audioLen : ℕ) (sr : ℤ) (rms : ℚ)
    (p tm sp : Option ℚ) :
    (analyze_audio_features audioLen sr rms none tm sp).average_pitch_hz = 0 ∧
    (analyze_audio_features audioLen sr rms p none sp).tempo_bpm = 0 ∧
    (analyze_audio_features audioLen sr rms p tm none).spectral_centroid = 0 ∧
    (∀ p' : Option ℚ,
      (analyze_audio_features audioLen sr rms p' tm sp).duration_seconds =
        (analyze_audio_features audioLen sr rms p tm sp).duration_seconds ∧
      (analyze_audio_features audioLen sr rms p' tm sp).sample_rate =
        (analyze_audio_features audioLen sr rms p tm sp).sample_rate ∧
      (analyze_audio_features audioLen sr rms p' tm sp).average_rms =
        (analyze_audio_features audioLen sr rms p tm sp).average_rms ∧
      (analyze_audio_features audioLen sr rms p' tm sp).tempo_bpm =
        (analyze_audio_features audioLen sr rms p tm sp).tempo_bpm ∧
      (analyze_audio_features audioLen sr rms p' tm sp).spectral_centroid =
        (analyze_audio_features audioLen sr rms p tm sp).spectral_centroid) ∧
    (∀ tm' : Option ℚ,
      (analyze_audio_features audioLen sr rms p tm' sp).average_pitch_hz =
        (analyze_audio_features audioLen sr rms p tm sp).average_pitch_hz ∧
      (analyze_audio_features audioLen sr rms p tm' sp).spectral_centroid =
        (analyze_audio_features audioLen sr rms p tm sp).spectral_centroid) ∧
    (∀ sp' : Option ℚ,
      (analyze_audio_features audioLen sr rms p tm sp').average_pitch_hz =
        (analyze_audio_features audioLen sr rms p tm sp).average_pitch_hz ∧
      (analyze_audio_features audioLen sr rms p tm sp').tempo_bpm =
        (analyze_audio_features audioLen sr rms p tm sp).tempo_bpm) := by
  refine ⟨?_, ?_, ?_, fun p' => ⟨rfl, rfl, rfl, rfl, rfl⟩,
    fun tm' => ⟨rfl, rfl⟩, fun sp' => ⟨rfl, rfl⟩⟩
  · simp [analyze_audio_features, pyRound_zero]
  · simp [analyze_audio_features, pyRound_zero]
  · simp [analyze_audio_features, pyRound_zero]

/-- The loop body never decreases the running `pulse` value. -/
theorem le_pulseStep (t p bt : ℚ) : p ≤ pulseStep t p bt := by
  unfold pulseStep
  split
  · exact le_max_left _ _
  · exact le_refl p

/-- The loop body keeps the running `pulse` value at most `1`. -/
theorem pulseStep_le_one (t p bt : ℚ) (hp : p ≤ 1) : pulseStep t p bt ≤ 1 := by
  unfold pulseStep
  split
  · refine max_le hp ?_
    have h0 : 0 ≤ |t - bt| / (1/10) := by positivity
    linarith
  · exact hp

/-- Folding the loop from a value at most `1` stays at most `1`. -/
theorem foldl_pulseStep_le_one (t : ℚ) :
    ∀ (l : List ℚ) (p : ℚ), p ≤ 1 → l.foldl (pulseStep t) p ≤ 1
  | [], _, hp => hp
  | bt :: rest, p, hp =>
    foldl_pulseStep_le_one t rest _ (pulseStep_le_one t p bt hp)

/-- Folding the loop never decreases the accumulator. -/
theorem le_foldl_pulseStep (t : ℚ) :
    ∀ (l : List ℚ) (p : ℚ), p ≤ l.foldl (pulseStep t) p
  | [], p => le_refl p
  | bt :: rest, p =>
    le_trans (le_pulseStep t p bt) (le_foldl_pulseStep t rest _)

/-- When every beat is out of the pulse window the fold is the identity. -/
theorem foldl_pulseStep_of_far (t : ℚ) :
    ∀ (l : List ℚ) (p : ℚ), (∀ bt ∈ l, ¬ |t - bt| < 1/10) →
      l.foldl (pulseStep t) p = p
  | [], _, _ => rfl
  | bt :: rest, p, h => by
    have hbt : pulseStep t p bt = p := by
      unfold pulseStep
      rw [if_neg (h bt (List.mem_cons_self bt rest))]
    rw [List.foldl_cons, hbt]
    exact foldl_pulseStep_of_far t rest p
      (fun x hx => h x (List.mem_cons_of_mem _ hx))

/-- The fold either keeps its start value or returns the triangular value of
some in-window beat of the list. -/
theorem foldl_pulseStep_cases (t : ℚ) :
    ∀ (l : List ℚ) (p : ℚ),
      l.foldl (pulseStep t) p = p ∨
      ∃ bt ∈ l, l.foldl (pulseStep t) p = 1 - |t - bt| / (1/10) ∧
        |t - bt| < 1/10
  | [], p => Or.inl rfl
  | bt :: rest, p => by
    rw [List.foldl_cons]
    rcases foldl_pulseStep_cases t rest (pulseStep t p bt) with h |
      ⟨bt', hmem, heq, hlt⟩
    · rw [h]
      unfold pulseStep
      split
      · rcases max_choice p (1 - |t - bt| / (1/10)) with hm | hm
        · exact Or.inl hm
        · rename_i hc
          exact Or.inr ⟨bt, List.mem_cons_self bt rest, hm, hc⟩
      · exact Or.inl rfl
    · exact Or.inr ⟨bt', List.mem_cons_of_mem _ hmem, heq, hlt⟩

/-- Any in-window beat of the list bounds the fold from below by its
triangular value. -/
theorem foldl_pulseStep_mem_ge (t : ℚ) :
    ∀ (l : List ℚ) (p bt : ℚ), bt ∈ l → |t - bt| < 1/10 →
      1 - |t - bt| / (1/10) ≤ l.foldl (pulseStep t) p
  | [], _, bt, hmem, _ => absurd hmem (List.not_mem_nil bt)
  | x :: rest, p, bt, hmem, hlt => by
    rw [List.foldl_cons]
    rcases List.mem_cons.1 hmem with h | h
    · subst h
      refine le_trans ?_ (le_foldl_pulseStep t rest _)
      unfold pulseStep
      rw [if_pos hlt]
      exact le_max_right _ _
    · exact foldl_pulseStep_mem_ge t rest _ bt h hlt

/-- C3: for every non-empty beat list and every time `t`, the pulse intensity
is `0` whenever every beat (in particular the nearest one) is farther than
`0.10` seconds from `t`; the intensity never exceeds `1`; and it attains the
maximum value `1` exactly at beat times. -/
theorem pulse_intensity_far_zero_max_at_beats (times : List ℚ) (t : ℚ)
    (hne : times ≠ []) :
    ((∀ bt ∈ times, 1/10 < |t - bt|) → pulseIntensity times t = 0) ∧
    (∀ u : ℚ, pulseIntensity times u ≤ 1) ∧
    (pulseIntensity times t = 1 ↔ t ∈ times) := by
  refine ⟨?_, ?_, ?_, ?_⟩
  · intro h
    exact foldl_pulseStep_of_far t times 0
      (fun bt hbt => not_lt.2 (le_of_lt (h bt hbt)))
  · intro u
    exact foldl_pulseStep_le_one u times 0 (by norm_num)
  · intro h1
    rcases foldl_pulseStep_cases t times 0 with h | ⟨bt, hmem, heq, hlt⟩
    · rw [pulseIntensity, h] at h1
      norm_num at h1
    · rw [pulseIntensity, heq] at h1
      have habs : |t - bt| = 0 := by
        have h10 : |t - bt| / (1/10) = 0 := by linarith
        have := (div_eq_zero_iff.1 h10)
        rcases this with h' | h'
        · exact h'
        · norm_num at h'
      have : t = bt := by
        have := abs_eq_zero.1 habs
        linarith
      exact this ▸ hmem
  · intro hmem
    have hub := foldl_pulseStep_le_one t times 0 (by norm_num)
    have hlb := foldl_pulseStep_mem_ge t times 0 t hmem
      (by simpa using (by norm_num : (0:ℚ) < 1/10))
    rw [sub_self t, abs_zero] at hlb
    have hlb' : (1:ℚ) ≤ times.foldl (pulseStep t) 0 := by
      simpa using hlb
    exact le_antisymm hub hlb'

/-- C3 witness: the theorem at the single beat `1/2` and `t = 1/2`. -/
theorem pulse_intensity_far_zero_max_at_beats_witness :
    ((∀ bt ∈ ([1/2] : List ℚ), 1/10 < |(1:ℚ)/2 - bt|) →
      pulseIntensity [1/2] (1/2) = 0) ∧
    (∀ u : ℚ, pulseIntensity [1/2] u ≤ 1) ∧
    (pulseIntensity [1/2] (1/2) = 1 ↔ (1:ℚ)/2 ∈ ([1/2] : List ℚ)) :=
  pulse_intensity_far_zero_max_at_beats [1/2] (1/2) (by simp)

/-- Folding `max` never goes below the start value. -/
theorem le_foldl_max (l : List ℚ) : ∀ b : ℚ, b ≤ l.foldl max b := by
  induction l with
  | nil => intro b; exact le_refl b
  | cons x xs ih =>
    intro b
    exact le_trans (le_max_left b x) (ih (max b x))

/-- Every member of a list is at most the `max`-fold over the list. -/
theorem mem_le_foldl_max (l : List ℚ) :
    ∀ (b a : ℚ), a ∈ l → a ≤ l.foldl max b := by
  induction l with
  | nil => intro b a ha; exact absurd ha (List.not_mem_nil a)
  | cons x xs ih =>
    intro b a ha
    rcases List.mem_cons.1 ha with h | h
    · subst h
      exact le_trans (le_max_right b a) (le_foldl_max xs _)
    · exact ih _ a h

/-- C5: every value of the loudness envelope (windowed magnitude averaging
followed by `env / (env.max() + 1e-8)`) lies in `[0, 1]`, and for an all-zero
(silent) input signal every envelope value equals `0`. -/
theorem loudness_env_in_unit_and_silent_zero (y : List ℚ) (win : ℕ) :
    (∀ v ∈ loudness_env y win, 0 ≤ v ∧ v ≤ 1) ∧
    ((∀ s ∈ y, s = 0) → ∀ v ∈ loudness_env y win, v = 0) := by
  constructor
  · intro v hv
    simp only [loudness_env, List.mem_map] at hv
    obtain ⟨e, he, rfl⟩ := hv
    have he0 : 0 ≤ e := by
      simp only [raw_env, List.mem_map] at he
      obtain ⟨c, -, rfl⟩ := he
      exact abs_nonneg _
    have heM : e ≤ (raw_env y win).foldl max 0 := mem_le_foldl_max _ 0 e he
    have hM0 : (0:ℚ) ≤ (raw_env y win).foldl max 0 := le_foldl_max _ 0
    have hden : (0:ℚ) < (raw_env y win).foldl max 0 + 1/100000000 := by
      linarith
    constructor
    · exact div_nonneg he0 (le_of_lt hden)
    · rw [div_le_one hden]
      linarith
  · intro hz v hv
    simp only [loudness_env, List.mem_map] at hv
    obtain ⟨e, he, rfl⟩ := hv
    have he0 : e = 0 := by
      simp only [raw_env, List.mem_map] at he
      obtain ⟨c, hc, rfl⟩ := he
      have hall : ∀ x ∈ c, x = 0 := by
        intro x hx
        apply hz
        simp only [chunkFrames, List.mem_map] at hc
        obtain ⟨i, -, rfl⟩ := hc
        exact List.drop_subset _ _ (List.take_subset _ _ hx)
      have hsum : c.sum = 0 := List.sum_eq_zero hall
      simp [listMean, hsum]
    rw [he0, zero_div]

/-- C5 witness: bounds at the signal `[1, 0, 0, 1]` with window `2`, and the
silent case at the signal `[0, 0, 0]` with window `1`. -/
theorem loudness_env_in_unit_and_silent_zero_witness :
    (∀ v ∈ loudness_env [1, 0, 0, 1] 2, 0 ≤ v ∧ v ≤ 1) ∧
    (∀ v ∈ loudness_env [0, 0, 0] 1, v = 0) :=
  ⟨(loudness_env_in_unit_and_silent_zero [1, 0, 0, 1] 2).1,
   (loudness_env_in_unit_and_silent_zero [0, 0, 0] 1).2 (by simp)⟩

/-- C6 counterexample: at `text = "ab"`, local time `t = 0` and local duration
`d = 1` the typewriter reveals `"a"`, whereas the claim's formula
`n = ⌊len(text) * clamp(t/d, 0, 1)⌋ = 0` demands the empty string: the code
applies an extra `max(1, ·)` to `n`. -/
theorem typewriter_reveal_counterexample :
    typewriter_reveal "ab" 0 1 = "a" ∧
    stringTake "ab" (Int.toNat ⌊(("ab".length : ℚ)) * max 0 (min 1 ((0:ℚ) / 1))⌋) = "" := by
  have hlen : (("ab".length : ℕ) : ℚ) = 2 := by
    rw [show "ab".length = 2 from by decide]
    norm_num
  constructor
  · simp only [typewriter_reveal, show safe_text "ab" 160 = "ab" from by decide,
      hlen]
    rw [show max 1 (Int.toNat ⌊(2:ℚ) * max 0 (min 1 ((0:ℚ) / max (1/100) 1))⌋) = 1
      from by norm_num]
    decide
  · rw [hlen,
      show Int.toNat ⌊(2:ℚ) * max 0 (min 1 ((0:ℚ) / 1))⌋ = 0 from by norm_num]
    decide

/-- C6 amended: for every non-empty text string that the sanitizer
`_safe_text(·, 160)` leaves unchanged, every local time `t` and every local
duration `d`, the typewriter layer reveals exactly the code-point prefix
`text[:n]` with `n = max(1, ⌊len(text) * clamp(t / max(0.01, d), 0, 1)⌋)`;
the revealed text is therefore never empty, and once `t ≥ d ≥ 0.01` the whole
text is revealed. -/
theorem typewriter_reveal_amended (text : String) (t d : ℚ)
    (hne : text ≠ "") (hsafe : safe_text text 160 = text) :
    typewriter_reveal text t d =
      stringTake text
        (max 1 (Int.toNat ⌊(text.length : ℚ) * max 0 (min 1 (t / max (1/100) d))⌋)) ∧
    typewriter_reveal text t d ≠ "" ∧
    (1/100 ≤ d → d ≤ t → typewriter_reveal text t d = text) := by
  have hdata : text.data ≠ [] := by
    intro h
    apply hne
    cases text
    simp_all
  have hmain : typewriter_reveal text t d =
      stringTake text
        (max 1 (Int.toNat ⌊(text.length : ℚ) * max 0 (min 1 (t / max (1/100) d))⌋)) := by
    simp only [typewriter_reveal, hsafe]
  refine ⟨hmain, ?_, ?_⟩
  · rw [hmain]
    intro hcon
    have htake : text.data.take
        (max 1 (Int.toNat ⌊(text.length : ℚ) * max 0 (min 1 (t / max (1/100) d))⌋)) = [] :=
      congrArg String.data hcon
    have hlen0 := congrArg List.length htake
    rw [List.length_take] at hlen0
    rcases Nat.min_eq_zero_iff.1 hlen0 with h | h
    · have : (1:ℕ) ≤ max 1 (Int.toNat ⌊(text.length : ℚ) * max 0 (min 1 (t / max (1/100) d))⌋) :=
        le_max_left _ _
      omega
    · exact hdata (List.length_eq_zero.1 h)
  · intro h1 h2
    have hd0 : (0:ℚ) < d := lt_of_lt_of_le (by norm_num) h1
    have hprog : max (0:ℚ) (min 1 (t / max (1/100) d)) = 1 := by
      rw [max_eq_right h1, min_eq_left ((one_le_div hd0).2 h2)]
      norm_num
    have hlenpos : 1 ≤ text.length := List.length_pos.2 hdata
    rw [hmain, hprog, mul_one, Int.floor_natCast, Int.toNat_natCast,
      max_eq_right hlenpos]
    show String.mk (text.data.take text.data.length) = text
    rw [List.take_length]

/-- C6 witness: the amended claim at `text = "hello"`, `t = 1`, `d = 1`. -/
theorem typewriter_reveal_amended_witness :
    typewriter_reveal "hello" 1 1 =
      stringTake "hello"
        (max 1 (Int.toNat ⌊(("hello".length : ℚ)) * max 0 (min 1 ((1:ℚ) / max (1/100) 1))⌋)) ∧
    typewriter_reveal "hello" 1 1 ≠ "" ∧
    (1/100 ≤ (1:ℚ) → (1:ℚ) ≤ 1 → typewriter_reveal "hello" 1 1 = "hello") :=
  typewriter_reveal_amended "hello" 1 1 (by decide) (by decide)

/-- The fallback `if not parts: parts = [text]` guarantees a non-empty chunk
list. -/
theorem karaoke_parts_ne_nil (text : String) : karaoke_parts text ≠ [] := by
  unfold karaoke_parts
  by_cases h : (((splitChar '.' text.data).map
      (fun l => pyStrip (String.mk l))).filter (fun s => 3 < s.length)) = []
  · simp [h]
  · simp [h]

/-- The caption loop emits one clip per chunk. -/
theorem karaoke_loop_length (duration per : ℚ) :
    ∀ (ps : List String) (s : ℚ),
      (karaoke_loop duration per ps s).length = ps.length
  | [], _ => rfl
  | seg :: rest, s => by
    simp only [karaoke_loop, List.length_cons]
    rw [karaoke_loop_length duration per rest]

/-- As long as the remaining chunks fit (`s + len * per ≤ duration`) every
emitted clip lasts exactly `per`, starts no earlier than `0`, and ends no
later than `duration`. -/
theorem karaoke_loop_mem_spec (duration per : ℚ) (hper : 0 ≤ per) :
    ∀ (ps : List String) (s : ℚ), 0 ≤ s →
      s + ps.length * per ≤ duration →
      ∀ c ∈ karaoke_loop duration per ps s,
        c.2.2 = per ∧ 0 ≤ c.2.1 ∧ c.2.1 + c.2.2 ≤ duration := by
  intro ps
  induction ps with
  | nil =>
    intro s _ _ c hc
    simp [karaoke_loop] at hc
  | cons seg rest ih =>
    intro s hs hbound c hc
    have hrest0 : (0:ℚ) ≤ (rest.length : ℚ) * per := by positivity
    have hlen : ((seg :: rest).length : ℚ) * per =
        per + (rest.length : ℚ) * per := by
      push_cast [List.length_cons]
      ring
    rw [hlen] at hbound
    have hsp : s + per ≤ duration := by linarith
    have hmin : min duration (s + per) = s + per := min_eq_right hsp
    simp only [karaoke_loop, hmin, List.mem_cons] at hc
    rcases hc with h | h
    · subst h
      refine ⟨by simp, by simpa using hs, ?_⟩
      simp only []
      have : s + (s + per - s) = s + per := by ring
      simpa [this] using hsp
    · exact ih (s + per) (by linarith) (by linarith) c h

/-- Consecutive clips of the caption loop are contiguous: each clip's start
plus its duration is the next clip's start. -/
theorem karaoke_loop_chain (duration per : ℚ) :
    ∀ (ps : List String) (s : ℚ),
      List.Chain' (fun a b => a.2.1 + a.2.2 = b.2.1)
        (karaoke_loop duration per ps s) := by
  intro ps
  induction ps with
  | nil => intro s; simp [karaoke_loop]
  | cons seg rest ih =>
    intro s
    simp only [karaoke_loop]
    rw [List.chain'_cons']
    refine ⟨?_, ih _⟩
    intro b hb
    cases rest with
    | nil => simp [karaoke_loop] at hb
    | cons seg2 rest2 =>
      simp only [karaoke_loop, List.head?_cons, Option.mem_def,
        Option.some.injEq] at hb
      rw [← hb]
      simp

/-- The first clip of the caption loop starts at the initial cursor. -/
theorem karaoke_loop_head_start (duration per : ℚ) (ps : List String) (s : ℚ) :
    ∀ c, (karaoke_loop duration per ps s).head? = some c → c.2.1 = s := by
  cases ps with
  | nil => intro c hc; simp [karaoke_loop] at hc
  | cons seg rest =>
    intro c hc
    simp only [karaoke_loop, List.head?_cons, Option.some.injEq] at hc
    rw [← hc]

/-- C8: for every transcription and every duration `D > 0`, the caption
generator assigns every emitted chunk an equal slice `D / (number of chunks)`;
consecutive slices are contiguous (each starts where the previous one ends);
the first slice starts at `0`; no slice starts before `0` or extends past
`D`; and whenever the sanitized transcription is non-empty at least one chunk
is emitted. -/
theorem karaoke_clips_equal_contiguous_slices (tr : String) (D : ℚ)
    (hD : 0 < D) :
    (∀ c ∈ karaoke_clips tr D, c.2.2 = D / (karaoke_clips tr D).length) ∧
    List.Chain' (fun a b => a.2.1 + a.2.2 = b.2.1) (karaoke_clips tr D) ∧
    (∀ c, (karaoke_clips tr D).head? = some c → c.2.1 = 0) ∧
    (∀ c ∈ karaoke_clips tr D, 0 ≤ c.2.1 ∧ c.2.1 + c.2.2 ≤ D) ∧
    (safe_text tr 400 ≠ "" → karaoke_clips tr D ≠ []) := by
  by_cases htext : safe_text tr 400 = ""
  · have hnil : karaoke_clips tr D = [] := by
      simp [karaoke_clips, htext]
    exact ⟨by simp [hnil], by simp [hnil], by simp [hnil], by simp [hnil],
      fun h => absurd htext h⟩
  · have hkc : karaoke_clips tr D =
        karaoke_loop D (D / (karaoke_parts (safe_text tr 400)).length)
          (karaoke_parts (safe_text tr 400)) 0 := by
      simp only [karaoke_clips, if_neg htext]
    have hPne := karaoke_parts_ne_nil (safe_text tr 400)
    have hlenpos : 0 < (karaoke_parts (safe_text tr 400)).length :=
      List.length_pos.2 hPne
    have hlenQ : (0:ℚ) < ((karaoke_parts (safe_text tr 400)).length : ℚ) := by
      exact_mod_cast hlenpos
    have hper : 0 ≤ D / ((karaoke_parts (safe_text tr 400)).length : ℚ) :=
      le_of_lt (div_pos hD hlenQ)
    have hbound : (0:ℚ) +
        ((karaoke_parts (safe_text tr 400)).length : ℚ) *
          (D / ((karaoke_parts (safe_text tr 400)).length : ℚ)) ≤ D := by
      rw [zero_add, mul_div_cancel₀ D (ne_of_gt hlenQ)]
    have hspec := karaoke_loop_mem_spec D
      (D / ((karaoke_parts (safe_text tr 400)).length : ℚ)) hper
      (karaoke_parts (safe_text tr 400)) 0 (le_refl 0) hbound
    have hlength : (karaoke_clips tr D).length =
        (karaoke_parts (safe_text tr 400)).length := by
      rw [hkc, karaoke_loop_length]
    refine ⟨?_, ?_, ?_, ?_, ?_⟩
    · intro c hc
      rw [hlength]
      rw [hkc] at hc
      exact (hspec c hc).1
    · rw [hkc]
      exact karaoke_loop_chain D _ (karaoke_parts (safe_text tr 400)) 0
    · intro c hc
      rw [hkc] at hc
      exact karaoke_loop_head_start D _ (karaoke_parts (safe_text tr 400)) 0 c hc
    · intro c hc
      rw [hkc] at hc
      exact (hspec c hc).2
    · intro _
      rw [hkc]
      cases hcase : karaoke_parts (safe_text tr 400) with
      | nil => exact absurd hcase hPne
      | cons a l => simp [karaoke_loop]

/-- C8 witness: the theorem at the transcription `"abcd. efgh."` and
`D = 10`. -/
theorem karaoke_clips_equal_contiguous_slices_witness :
    (∀ c ∈ karaoke_clips "abcd. efgh." 10,
      c.2.2 = 10 / (karaoke_clips "abcd. efgh." 10).length) ∧
    List.Chain' (fun a b => a.2.1 + a.2.2 = b.2.1)
      (karaoke_clips "abcd. efgh." 10) ∧
    (∀ c, (karaoke_clips "abcd. efgh." 10).head? = some c → c.2.1 = 0) ∧
    (∀ c ∈ karaoke_clips "abcd. efgh." 10, 0 ≤ c.2.1 ∧ c.2.1 + c.2.2 ≤ 10) ∧
    (safe_text "abcd. efgh." 400 ≠ "" → karaoke_clips "abcd. efgh." 10 ≠ []) :=
  karaoke_clips_equal_contiguous_slices "abcd. efgh." 10 (by norm_num)

/-- Dropping leading hash characters leaves a list whose head, if any, is not
a hash. -/
theorem head?_dropWhile_hash :
    ∀ (l : List Char) (c : Char),
      (l.dropWhile (fun x => decide (x = '#'))).head? = some c → c ≠ '#' := by
  intro l
  induction l with
  | nil =>
    intro c hc
    simp [List.dropWhile] at hc
  | cons x xs ih =>
    intro c hc
    by_cases hx : x = '#'
    · rw [List.dropWhile_cons_of_pos (by simp [hx])] at hc
      exact ih c hc
    · rw [List.dropWhile_cons_of_neg (by simp [hx])] at hc
      simp only [List.head?_cons, Option.some.injEq] at hc
      rw [← hc]
      exact hx

/-- The rendered tag is a hash followed by the input with its leading hashes
removed. -/
theorem renderTag_data (h : String) :
    (renderTag h).data = '#' :: (lstripHash h).data := rfl

/-- C10: for every non-empty hashtag list the renderer adds exactly one
hashtag-strip layer, active from time `0` for the full track duration, whose
text joins the first 5 hashtags with two spaces; each rendered tag starts
with exactly one leading hash (existing leading hashes are stripped first);
and for an absent or empty hashtag list no layer is added. -/
theorem hashtag_layer_spec (hs : List String) (D : ℚ) (hne : hs ≠ []) :
    (hashtag_layers (some hs) D).length = 1 ∧
    (∀ L ∈ hashtag_layers (some hs) D,
      L.start = 0 ∧ L.durationSeconds = D ∧
      L.text = String.intercalate "  " ((hs.take 5).map renderTag)) ∧
    (∀ h : String, (renderTag h).data.head? = some '#' ∧
      ∀ c, (renderTag h).data.tail.head? = some c → c ≠ '#') ∧
    hashtag_layers none D = [] ∧
    hashtag_layers (some []) D = [] := by
  refine ⟨?_, ?_, ?_, ?_, ?_⟩
  · simp [hashtag_layers, hne]
  · intro L hL
    simp only [hashtag_layers, Option.getD_some, if_neg hne,
      List.mem_singleton] at hL
    rw [hL]
    exact ⟨rfl, rfl, rfl⟩
  · intro h
    constructor
    · rw [renderTag_data]
      rfl
    · intro c hc
      rw [renderTag_data] at hc
      simp only [List.tail_cons] at hc
      exact head?_dropWhile_hash h.data c hc
  · rfl
  · rfl

/-- C10 witness: the theorem at the hashtag list `["ai", "#music"]` and
duration `7`. -/
theorem hashtag_layer_spec_witness :
    (hashtag_layers (some ["ai", "#music"]) 7).length = 1 ∧
    (∀ L ∈ hashtag_layers (some ["ai", "#music"]) 7,
      L.start = 0 ∧ L.durationSeconds = 7 ∧
      L.text = String.intercalate "  " ((["ai", "#music"].take 5).map renderTag)) ∧
    (∀ h : String, (renderTag h).data.head? = some '#' ∧
      ∀ c, (renderTag h).data.tail.head? = some c → c ≠ '#') ∧
    hashtag_layers none 7 = [] ∧
    hashtag_layers (some []) 7 = [] :=
  hashtag_layer_spec ["ai", "#music"] 7 (by decide)

end ReelSense
